import Mathlib

/-!
Shallow embedding of the loan-ledger core of the repository:
the balance calculator, the entry-posting transaction, the soft-delete /
restore coordinator and the read-only query surface, translated from
`src/backend/src/controllers/entriesController.js`,
`src/backend/src/controllers/loanController.js`,
`src/backend/src/utils/loanCalculations.js` and the recycle-bin controller.
Monetary JS numbers are embedded as exact rationals (ℚ), timestamps as
integers (epoch milliseconds) and the soft-delete marker as `Option Nat`.
-/

namespace Register

/-- The slice of a loan row read by the balance calculator:
`loan.balanceAmount`, `loan.balanceInterest`, `loan.interest`. -/
structure LoanBalances where
  balanceAmount : ℚ
  balanceInterest : ℚ
  interest : ℚ
deriving DecidableEq, Repr

/-- Result record of both `calculateUpdatedLoanBalances` variants. -/
structure BalanceCalcResult where
  newBalanceAmount : ℚ
  newBalanceInterest : ℚ
  interestAmount : ℚ
  totalInterestBeforePayment : ℚ
  interestOnBalance : ℚ
deriving DecidableEq, Repr

/-- The balance calculator defined inline in the entries controller
(`entriesController.js` lines 10-37): interest accrues on the current
balance only, pending interest is added once, payments are floored at 0. -/
def calculateUpdatedLoanBalances (loan : LoanBalances)
    (receivedAmount receivedInterest : ℚ) : BalanceCalcResult :=
  let currentBalanceAmount := loan.balanceAmount
  let currentBalanceInterest := loan.balanceInterest
  let interestRate := loan.interest
  let interestOnBalance := currentBalanceAmount * interestRate / 100
  let newInterestAmount := interestOnBalance
  let totalInterestBeforePayment := currentBalanceInterest + newInterestAmount
  let remainingBalanceInterest := max 0 (totalInterestBeforePayment - receivedInterest)
  let newBalanceAmount := max 0 (currentBalanceAmount - receivedAmount)
  { newBalanceAmount := newBalanceAmount
    newBalanceInterest := remainingBalanceInterest
    interestAmount := newInterestAmount
    totalInterestBeforePayment := totalInterestBeforePayment
    interestOnBalance := interestOnBalance }

/-- The balance calculator of `utils/loanCalculations.js` (lines 18-45).
It folds `currentBalanceInterest` into `newInterestAmount` and then adds
`currentBalanceInterest` again for `totalInterestBeforePayment`. -/
def calculateUpdatedLoanBalancesUtils (loan : LoanBalances)
    (receivedAmount receivedInterest : ℚ) : BalanceCalcResult :=
  let currentBalanceAmount := loan.balanceAmount
  let currentBalanceInterest := loan.balanceInterest
  let interestRate := loan.interest
  let interestOnBalance := currentBalanceAmount * interestRate / 100
  let newInterestAmount := interestOnBalance + currentBalanceInterest
  let totalInterestBeforePayment := currentBalanceInterest + newInterestAmount
  let remainingBalanceInterest := max 0 (totalInterestBeforePayment - receivedInterest)
  let newBalanceAmount := max 0 (currentBalanceAmount - receivedAmount)
  { newBalanceAmount := newBalanceAmount
    newBalanceInterest := remainingBalanceInterest
    interestAmount := newInterestAmount
    totalInterestBeforePayment := totalInterestBeforePayment
    interestOnBalance := interestOnBalance }

/-- A row of the `loans` table (`schema.prisma`), restricted to the fields the
core reads and writes. The two `init*` fields are specification-only ghost
state: they record the balances the loan was created with (set once by
`createLoanOp`, never modified afterwards) so that replay invariants can refer
to them; they model no stored column. -/
structure Loan where
  id : Nat
  partyId : Nat
  loanDate : Int
  loanAmount : ℚ
  balanceAmount : ℚ
  interest : ℚ
  balanceInterest : ℚ
  totalInterestAmount : ℚ
  deletedAt : Option Nat
  initBalanceAmount : ℚ
  initBalanceInterest : ℚ
deriving DecidableEq, Repr

/-- A row of the `entries` table. `receivedAmount`/`receivedInterest` are kept
nullable exactly as stored by `createEntry` (which spreads the raw request
data); `entryDate`/`receivedDate` are epoch milliseconds. -/
structure Entry where
  id : Nat
  loanId : Nat
  entryDate : Int
  balanceAmount : ℚ
  interestAmount : ℚ
  receivedDate : Option Int
  receivedAmount : Option ℚ
  receivedInterest : Option ℚ
  deletedAt : Option Nat
deriving DecidableEq, Repr

/-- The persistent store: the two tables plus autoincrement counters and a
clock supplying the `new Date()` timestamps used by soft delete. -/
structure DB where
  loans : List Loan
  entries : List Entry
  nextLoanId : Nat
  nextEntryId : Nat
  now : Nat
deriving DecidableEq, Repr

/-- The empty database. -/
def initDB : DB := { loans := [], entries := [], nextLoanId := 1, nextEntryId := 1, now := 0 }

/-- Error responses the controllers produce: zod validation failures (400),
`createError(400, msg)` and `createError(404, msg)`. -/
inductive ApiError where
  | validationError
  | badRequest (msg : String)
  | notFound (msg : String)
deriving DecidableEq, Repr

/-- zod `.nonnegative().optional().nullable()`: an absent value passes, a
present value must be `≥ 0`. -/
def optNonneg : Option ℚ → Bool
  | none => true
  | some x => decide (0 ≤ x)

/-- Entries of one loan, in insertion (posting) order:
`entry.findMany({ where: { loanId } })` with no `deletedAt` filter. -/
def entriesFor (es : List Entry) (loanId : Nat) : List Entry :=
  es.filter (fun e => e.loanId == loanId)

/-- Live entries of one loan: the same query with `deletedAt: null` added. -/
def liveEntriesFor (es : List Entry) (loanId : Nat) : List Entry :=
  es.filter (fun e => e.loanId == loanId && e.deletedAt == none)

/-- `POST /api/loans` (`loanController.js` lines 128-152): validate, then
insert a loan whose `balanceAmount` defaults to `loanAmount` and whose
`totalInterestAmount` starts at `balanceInterest`. -/
def createLoanOp (db : DB) (partyId : Nat) (loanDate : Int) (loanAmount : ℚ)
    (balanceAmountReq : Option ℚ) (interest balanceInterest : ℚ) : Except ApiError DB :=
  if partyId ≠ 0 ∧ 0 < loanAmount ∧ optNonneg balanceAmountReq ∧
      0 ≤ interest ∧ 0 ≤ balanceInterest then
    let ba := balanceAmountReq.getD loanAmount
    let loan : Loan :=
      { id := db.nextLoanId, partyId := partyId, loanDate := loanDate,
        loanAmount := loanAmount, balanceAmount := ba, interest := interest,
        balanceInterest := balanceInterest, totalInterestAmount := balanceInterest,
        deletedAt := none, initBalanceAmount := ba, initBalanceInterest := balanceInterest }
    .ok { db with loans := db.loans ++ [loan], nextLoanId := db.nextLoanId + 1,
                  now := db.now + 1 }
  else .error .validationError

/-- `POST /api/entries` (`entriesController.js` lines 144-202): validate,
load the loan by id (no `deletedAt` filter), run the balance calculator, then
in one transaction insert the entry (snapshotting the pre-update
`balanceAmount` and the accrued `interestAmount`) and update the loan. -/
def createEntryOp (db : DB) (loanId : Nat) (entryDate : Int)
    (receivedDate : Option Int) (receivedAmountReq receivedInterestReq : Option ℚ) :
    Except ApiError DB :=
  if loanId ≠ 0 ∧ optNonneg receivedAmountReq ∧ optNonneg receivedInterestReq then
    let receivedAmount := receivedAmountReq.getD 0
    let receivedInterest := receivedInterestReq.getD 0
    match db.loans.find? (fun l => l.id == loanId) with
    | none => .error (.notFound "Loan not found")
    | some loan =>
      let calculations := calculateUpdatedLoanBalances
        ⟨loan.balanceAmount, loan.balanceInterest, loan.interest⟩
        receivedAmount receivedInterest
      let entry : Entry :=
        { id := db.nextEntryId, loanId := loanId, entryDate := entryDate,
          balanceAmount := loan.balanceAmount,
          interestAmount := calculations.interestAmount,
          receivedDate := receivedDate, receivedAmount := receivedAmountReq,
          receivedInterest := receivedInterestReq, deletedAt := none }
      .ok { db with
        entries := db.entries ++ [entry],
        loans := db.loans.map (fun l =>
          if l.id == loanId then
            { l with balanceAmount := calculations.newBalanceAmount,
                     balanceInterest := calculations.newBalanceInterest,
                     totalInterestAmount := l.totalInterestAmount + receivedInterest }
          else l),
        nextEntryId := db.nextEntryId + 1, now := db.now + 1 }
  else .error .validationError

/-- `DELETE /api/loans/:id` (`loanController.js` lines 198-227): soft delete.
One transaction stamps `deletedAt = now` on every live entry of the loan and
on the loan itself, with a single shared `now`. -/
def deleteLoanOp (db : DB) (id : Nat) : Except ApiError DB :=
  if id = 0 then .error (.badRequest "Invalid loan ID")
  else
    match db.loans.find? (fun l => l.id == id) with
    | none => .error (.notFound "Loan not found")
    | some existing =>
      match existing.deletedAt with
      | some _ => .error (.badRequest "Loan is already deleted")
      | none =>
        .ok { db with
          entries := db.entries.map (fun e =>
            if e.loanId == id && e.deletedAt == none then
              { e with deletedAt := some db.now } else e),
          loans := db.loans.map (fun l =>
            if l.id == id then { l with deletedAt := some db.now } else l),
          now := db.now + 1 }

/-- `POST /api/recycle-bin/loans/:id/restore` (recycle-bin controller lines
115-176): clears `deletedAt` on the loan and on every currently soft-deleted
entry of that loan, in one transaction. -/
def restoreLoanOp (db : DB) (id : Nat) : Except ApiError DB :=
  if id = 0 then .error (.badRequest "Invalid loan ID")
  else
    match db.loans.find? (fun l => l.id == id) with
    | none => .error (.notFound "Loan not found")
    | some loan =>
      match loan.deletedAt with
      | none => .error (.badRequest "Loan is not deleted")
      | some _ =>
        .ok { db with
          entries := db.entries.map (fun e =>
            if e.loanId == id && e.deletedAt != none then
              { e with deletedAt := none } else e),
          loans := db.loans.map (fun l =>
            if l.id == id then { l with deletedAt := none } else l),
          now := db.now + 1 }

/-- `POST /api/recycle-bin/entries/:id/restore` (recycle-bin controller lines
179-208): restores a single soft-deleted entry. The parent loan is loaded by
the `include` but its `deletedAt` is never inspected. -/
def restoreEntryOp (db : DB) (id : Nat) : Except ApiError DB :=
  if id = 0 then .error (.badRequest "Invalid entry ID")
  else
    match db.entries.find? (fun e => e.id == id) with
    | none => .error (.notFound "Entry not found")
    | some entry =>
      match entry.deletedAt with
      | none => .error (.badRequest "Entry is not deleted")
      | some _ =>
        .ok { db with
          entries := db.entries.map (fun e =>
            if e.id == id then { e with deletedAt := none } else e),
          now := db.now + 1 }

/-- The core write operations of the spec: loan creation, entry posting,
loan soft-delete, loan restore and single-entry restore (there is no
single-entry soft-delete endpoint; the entry delete route was removed). -/
inductive Op where
  | createLoan (partyId : Nat) (loanDate : Int) (loanAmount : ℚ)
      (balanceAmountReq : Option ℚ) (interest balanceInterest : ℚ)
  | createEntry (loanId : Nat) (entryDate : Int) (receivedDate : Option Int)
      (receivedAmountReq receivedInterestReq : Option ℚ)
  | deleteLoan (id : Nat)
  | restoreLoan (id : Nat)
  | restoreEntry (id : Nat)
deriving Repr

/-- Dispatch one operation against the database. -/
def applyOp (db : DB) : Op → Except ApiError DB
  | .createLoan partyId loanDate loanAmount balanceAmountReq interest balanceInterest =>
      createLoanOp db partyId loanDate loanAmount balanceAmountReq interest balanceInterest
  | .createEntry loanId entryDate receivedDate receivedAmountReq receivedInterestReq =>
      createEntryOp db loanId entryDate receivedDate receivedAmountReq receivedInterestReq
  | .deleteLoan id => deleteLoanOp db id
  | .restoreLoan id => restoreLoanOp db id
  | .restoreEntry id => restoreEntryOp db id

/-- A failed operation rolls back: the database is unchanged. -/
def applyStep (db : DB) (op : Op) : DB :=
  match applyOp db op with
  | .ok db' => db'
  | .error _ => db

/-- Run a request trace against a database. -/
def run (ops : List Op) (db : DB) : DB := ops.foldl applyStep db

/-- Databases reachable from the empty store through the core operations. -/
inductive Reachable : DB → Prop where
  | base : Reachable initDB
  | step {db : DB} {op : Op} {db' : DB} :
      Reachable db → applyOp db op = .ok db' → Reachable db'

/-- One step of replaying the balance calculator over a stored entry, using
the payment fields as the posting defaulted them (`x || 0`). -/
def stepBalances (rate : ℚ) (p : ℚ × ℚ) (e : Entry) : ℚ × ℚ :=
  let c := calculateUpdatedLoanBalances ⟨p.1, p.2, rate⟩
    (e.receivedAmount.getD 0) (e.receivedInterest.getD 0)
  (c.newBalanceAmount, c.newBalanceInterest)

/-- Fold the balance calculator over a sequence of entries. -/
def foldBalances (rate : ℚ) (p : ℚ × ℚ) (es : List Entry) : ℚ × ℚ :=
  es.foldl (stepBalances rate) p

/-- Insert an entry into a list kept in descending `entryDate` order —
the `orderBy: { entryDate: "desc" }` of the latest-entry query. -/
def insertByDateDesc (e : Entry) : List Entry → List Entry
  | [] => [e]
  | x :: xs =>
    if x.entryDate ≤ e.entryDate then e :: x :: xs else x :: insertByDateDesc e xs

/-- Sort entries by `entryDate`, newest first. -/
def sortByEntryDateDesc (es : List Entry) : List Entry :=
  es.foldr insertByDateDesc []

/-- The latest `entryDate` in a list, as an explicit maximum. -/
def maxEntryDate : List Entry → Option Int
  | [] => none
  | e :: es =>
    some (match maxEntryDate es with
          | none => e.entryDate
          | some m => max e.entryDate m)

/-- `GET /api/loans/:id` (`loanController.js` lines 107-125): lookup by id
with no `deletedAt` condition. The `totalInterestAmount` aggregation attached
to the response is elided; the claim concerns which rows are found. -/
def getLoan (db : DB) (id : Nat) : Except ApiError Loan :=
  if id = 0 then .error (.badRequest "Invalid loan ID")
  else
    match db.loans.find? (fun l => l.id == id) with
    | none => .error (.notFound "Loan not found")
    | some l => .ok l

/-- `GET /api/entries/:id` (`entriesController.js` lines 123-141): lookup by
id with no `deletedAt` condition. -/
def getEntry (db : DB) (id : Nat) : Except ApiError Entry :=
  if id = 0 then .error (.badRequest "Invalid entry ID")
  else
    match db.entries.find? (fun e => e.id == id) with
    | none => .error (.notFound "Entry not found")
    | some e => .ok e

/-- The `where` clause of `GET /api/entries` (`entriesController.js` lines
93-98): soft-deleted rows excluded, optional `loanId` filter. Pagination and
ordering of the result set are elided. -/
def getEntries (db : DB) (loanIdFilter : Option Nat) : List Entry :=
  db.entries.filter (fun e =>
    e.deletedAt == none &&
      (match loanIdFilter with
       | some lid => e.loanId == lid
       | none => true))

/-- Response shape of `GET /api/entries/loan/:loanId/details`. -/
structure LoanDetails where
  id : Nat
  balanceAmount : ℚ
  interest : ℚ
  balanceInterest : ℚ
  loanDate : Int
  calculatedInterestAmount : ℚ
  totalPendingInterest : ℚ
  nextEntryDate : Int
deriving DecidableEq, Repr

/-- 30 days in milliseconds: `30 * 24 * 60 * 60 * 1000`. -/
def thirtyDaysMs : Int := 30 * 24 * 60 * 60 * 1000

/-- `GET /api/entries/loan/:loanId/details` (`entriesController.js` lines
205-247): loan preview. The latest entry is `findFirst` over
`where: { loanId }` ordered by `entryDate` descending — no `deletedAt`
filter — and `nextEntryDate` adds 30 days to its date (or to `loanDate`). -/
def getLoanDetailsForEntry (db : DB) (loanId : Nat) : Except ApiError LoanDetails :=
  if loanId = 0 then .error (.badRequest "Invalid loan ID")
  else
    match db.loans.find? (fun l => l.id == loanId) with
    | none => .error (.notFound "Loan not found")
    | some loan =>
      let interestOnBalance := loan.balanceAmount * loan.interest / 100
      let newInterestAmount := interestOnBalance
      let totalInterestAfterNewPeriod := loan.balanceInterest + newInterestAmount
      let latestEntryDate :=
        ((sortByEntryDateDesc (entriesFor db.entries loanId)).head?).map (fun e => e.entryDate)
      let baseDate := latestEntryDate.getD loan.loanDate
      .ok { id := loan.id, balanceAmount := loan.balanceAmount,
            interest := loan.interest, balanceInterest := loan.balanceInterest,
            loanDate := loan.loanDate,
            calculatedInterestAmount := newInterestAmount,
            totalPendingInterest := totalInterestAfterNewPeriod,
            nextEntryDate := baseDate + thirtyDaysMs }

/-- What one `createEntry` request computes before its transaction starts:
the loan snapshot read by `findUnique` (lines 162-169, outside the
transaction) and the calculator output derived from it (line 173). -/
structure EntryPostReadState where
  preBalanceAmount : ℚ
  preBalanceInterest : ℚ
  calculations : BalanceCalcResult
deriving DecidableEq, Repr

/-- Read phase of `createEntry`: everything before `prisma.$transaction`. -/
def createEntryRead (db : DB) (loanId : Nat)
    (receivedAmount receivedInterest : ℚ) : Option EntryPostReadState :=
  (db.loans.find? (fun l => l.id == loanId)).map (fun loan =>
    { preBalanceAmount := loan.balanceAmount,
      preBalanceInterest := loan.balanceInterest,
      calculations := calculateUpdatedLoanBalances
        ⟨loan.balanceAmount, loan.balanceInterest, loan.interest⟩
        receivedAmount receivedInterest })

/-- Write phase of `createEntry`: the transaction body (lines 176-199).
It inserts the entry and overwrites the loan balances with the constants
computed during the read phase. -/
def createEntryWrite (db : DB) (loanId : Nat) (entryDate : Int)
    (r : EntryPostReadState) (receivedDate : Option Int)
    (receivedAmountReq receivedInterestReq : Option ℚ) : DB :=
  { db with
    entries := db.entries ++
      [{ id := db.nextEntryId, loanId := loanId, entryDate := entryDate,
         balanceAmount := r.preBalanceAmount,
         interestAmount := r.calculations.interestAmount,
         receivedDate := receivedDate, receivedAmount := receivedAmountReq,
         receivedInterest := receivedInterestReq, deletedAt := none }],
    loans := db.loans.map (fun l =>
      if l.id == loanId then
        { l with balanceAmount := r.calculations.newBalanceAmount,
                 balanceInterest := r.calculations.newBalanceInterest,
                 totalInterestAmount := l.totalInterestAmount + receivedInterestReq.getD 0 }
      else l),
    nextEntryId := db.nextEntryId + 1, now := db.now + 1 }

/-- Insert an entry into a list kept in ascending `entryDate` order. -/
def insertByDateAsc (e : Entry) : List Entry → List Entry
  | [] => [e]
  | x :: xs =>
    if e.entryDate ≤ x.entryDate then e :: x :: xs else x :: insertByDateAsc e xs

/-- Sort entries by `entryDate`, oldest first. -/
def sortByEntryDateAsc (es : List Entry) : List Entry :=
  es.foldr insertByDateAsc []

/-- Modelled from the spec (invariant I2 / property P2), for comparison with
the implementation: fold the balance calculator over the loan's live entries
in `entryDate` order, starting from `(principal, 0)`. -/
def specFoldLiveByDate (db : DB) (l : Loan) : ℚ × ℚ :=
  foldBalances l.interest (l.loanAmount, 0) (sortByEntryDateAsc (liveEntriesFor db.entries l.id))

/-- Modelled from the spec (§4.3 / §6 `getLoanPreview`), for comparison with
the implementation: the latest *live* entry's `entryDate` (or the loan's
origination date if it has no live entries) plus 30 days. -/
def specNextEntryDate (db : DB) (l : Loan) : Int :=
  ((((sortByEntryDateDesc (liveEntriesFor db.entries l.id)).head?).map
      (fun e => e.entryDate)).getD l.loanDate) + thirtyDaysMs

/-! ## Helper lemmas -/

theorem optNonneg_getD {o : Option ℚ} (d : ℚ) (ho : optNonneg o = true) (hd : 0 ≤ d) :
    0 ≤ o.getD d := by
  cases o with
  | none => simpa using hd
  | some x => simpa [optNonneg] using ho

theorem eq_of_pairwise_ne {l : List Loan} (hp : l.Pairwise (fun a b => a.id ≠ b.id))
    {a b : Loan} (ha : a ∈ l) (hb : b ∈ l) (hid : a.id = b.id) : a = b := by
  induction l with
  | nil => cases ha
  | cons x xs ih =>
    rcases List.pairwise_cons.mp hp with ⟨hx, hxs⟩
    rcases List.mem_cons.mp ha with ha1 | ha2
    · rcases List.mem_cons.mp hb with hb1 | hb2
      · rw [ha1, hb1]
      · subst ha1; exact absurd hid (hx _ hb2)
    · rcases List.mem_cons.mp hb with hb1 | hb2
      · subst hb1; exact absurd hid.symm (hx _ ha2)
      · exact ih hxs ha2 hb2

theorem stepBalances_congr {rate : ℚ} {p : ℚ × ℚ} {e e' : Entry}
    (hra : e'.receivedAmount = e.receivedAmount)
    (hri : e'.receivedInterest = e.receivedInterest) :
    stepBalances rate p e' = stepBalances rate p e := by
  simp [stepBalances, hra, hri]

theorem foldBalances_map_eq (g : Entry → Entry)
    (hra : ∀ e, (g e).receivedAmount = e.receivedAmount)
    (hri : ∀ e, (g e).receivedInterest = e.receivedInterest)
    (rate : ℚ) : ∀ (es : List Entry) (p : ℚ × ℚ),
    foldBalances rate p (es.map g) = foldBalances rate p es := by
  intro es
  induction es with
  | nil => intro p; rfl
  | cons e es ih =>
    intro p
    simp only [List.map_cons, foldBalances, List.foldl_cons]
    rw [show List.foldl (stepBalances rate) (stepBalances rate p (g e)) (es.map g)
          = foldBalances rate (stepBalances rate p (g e)) (es.map g) from rfl,
        ih, stepBalances_congr (hra e) (hri e)]
    rfl

theorem entriesFor_map (g : Entry → Entry) (hg : ∀ e, (g e).loanId = e.loanId)
    (es : List Entry) (lid : Nat) :
    entriesFor (es.map g) lid = (entriesFor es lid).map g := by
  induction es with
  | nil => rfl
  | cons e es ih =>
    simp only [entriesFor, List.map_cons, List.filter_cons] at ih ⊢
    rw [hg e]
    by_cases h : e.loanId == lid <;> simp [h, ih, entriesFor]

theorem entriesFor_append_single (es : List Entry) (e : Entry) (lid : Nat) :
    entriesFor (es ++ [e]) lid
      = entriesFor es lid ++ (if e.loanId == lid then [e] else []) := by
  simp only [entriesFor, List.filter_append, List.filter_cons, List.filter_nil]

theorem entriesFor_eq_nil {es : List Entry} {lid : Nat}
    (h : ∀ e ∈ es, e.loanId ≠ lid) : entriesFor es lid = [] := by
  induction es with
  | nil => rfl
  | cons e es ih =>
    simp only [entriesFor, List.filter_cons]
    have he : (e.loanId == lid) = false := by
      simpa using h e (List.mem_cons_self _ _)
    rw [he]
    exact ih (fun x hx => h x (List.mem_cons_of_mem _ hx))

theorem foldBalances_append_single (rate : ℚ) (p : ℚ × ℚ) (es : List Entry) (e : Entry) :
    foldBalances rate p (es ++ [e]) = stepBalances rate (foldBalances rate p es) e := by
  simp [foldBalances, List.foldl_append]

theorem liveEntriesFor_eq_entriesFor {es : List Entry} {lid : Nat}
    (h : ∀ e ∈ es, e.loanId = lid → e.deletedAt = none) :
    liveEntriesFor es lid = entriesFor es lid := by
  induction es with
  | nil => rfl
  | cons e es ih =>
    simp only [liveEntriesFor, entriesFor, List.filter_cons] at ih ⊢
    have ih' := ih (fun x hx => h x (List.mem_cons_of_mem _ hx))
    by_cases hl : e.loanId = lid
    · have hd : e.deletedAt = none := h e (List.mem_cons_self _ _) hl
      simp [hl, hd, ih']
    · simp only [show (e.loanId == lid) = false by simpa using hl, Bool.false_and]
      exact ih'

/-! ## The state invariant -/

/-- Replaying the balance calculator over a loan's stored entries, in the
order they were posted, from the balances the loan was created with,
reproduces the loan's stored balances. -/
def LoanFoldInv (es : List Entry) (l : Loan) : Prop :=
  foldBalances l.interest (l.initBalanceAmount, l.initBalanceInterest) (entriesFor es l.id)
    = (l.balanceAmount, l.balanceInterest)

/-- The invariant maintained by every core operation. -/
structure Inv (db : DB) : Prop where
  nextPos : 0 < db.nextLoanId
  loanIds : ∀ l ∈ db.loans, l.id ≠ 0 ∧ l.id < db.nextLoanId
  loanIdsDistinct : db.loans.Pairwise (fun a b => a.id ≠ b.id)
  entryLoanIds : ∀ e ∈ db.entries, e.loanId < db.nextLoanId
  foldOk : ∀ l ∈ db.loans, LoanFoldInv db.entries l
  liveOwnsLive : ∀ l ∈ db.loans, l.deletedAt = none →
    ∀ e ∈ db.entries, e.loanId = l.id → e.deletedAt = none
  nonneg : ∀ l ∈ db.loans, 0 ≤ l.balanceAmount ∧ 0 ≤ l.balanceInterest ∧ 0 ≤ l.interest

theorem inv_initDB : Inv initDB :=
  ⟨by norm_num [initDB], by simp [initDB], by simp [initDB], by simp [initDB],
   by simp [initDB], by simp [initDB], by simp [initDB]⟩

theorem inv_createLoan {db db' : DB} {partyId : Nat} {loanDate : Int} {loanAmount : ℚ}
    {balanceAmountReq : Option ℚ} {interest balanceInterest : ℚ} (hInv : Inv db)
    (h : createLoanOp db partyId loanDate loanAmount balanceAmountReq interest balanceInterest
          = .ok db') : Inv db' := by
  unfold createLoanOp at h
  split at h
  case isFalse => exact absurd h (by simp)
  case isTrue hc =>
    obtain ⟨hp, hla, hba, hi, hbi⟩ := hc
    injection h with h
    subst h
    refine ⟨?_, ?_, ?_, ?_, ?_, ?_, ?_⟩
    · exact Nat.lt_trans hInv.nextPos (Nat.lt_succ_self _)
    · intro l hl
      rcases List.mem_append.mp hl with hl | hl
      · exact ⟨(hInv.loanIds l hl).1, Nat.lt_trans (hInv.loanIds l hl).2 (Nat.lt_succ_self _)⟩
      · have : l.id = db.nextLoanId := by
          simp only [List.mem_singleton] at hl; subst hl; rfl
        exact ⟨this ▸ Nat.pos_iff_ne_zero.mp hInv.nextPos, this ▸ Nat.lt_succ_self _⟩
    · refine List.pairwise_append.mpr ⟨hInv.loanIdsDistinct, List.pairwise_singleton _ _, ?_⟩
      intro a ha b hb
      simp only [List.mem_singleton] at hb
      subst hb
      exact Nat.ne_of_lt (hInv.loanIds a ha).2
    · intro e he
      exact Nat.lt_trans (hInv.entryLoanIds e he) (Nat.lt_succ_self _)
    · intro l hl
      rcases List.mem_append.mp hl with hl | hl
      · exact hInv.foldOk l hl
      · simp only [List.mem_singleton] at hl
        subst hl
        unfold LoanFoldInv
        rw [entriesFor_eq_nil (fun e he => Nat.ne_of_lt (hInv.entryLoanIds e he))]
        rfl
    · intro l hl hlive e he heid
      rcases List.mem_append.mp hl with hl | hl
      · exact hInv.liveOwnsLive l hl hlive e he heid
      · simp only [List.mem_singleton] at hl
        subst hl
        exact absurd heid (Nat.ne_of_lt (hInv.entryLoanIds e he))
    · intro l hl
      rcases List.mem_append.mp hl with hl | hl
      · exact hInv.nonneg l hl
      · simp only [List.mem_singleton] at hl
        subst hl
        exact ⟨optNonneg_getD loanAmount hba (le_of_lt hla), hbi, hi⟩

theorem loanFoldInv_map {es : List Entry} {g : Entry → Entry}
    (hgl : ∀ e, (g e).loanId = e.loanId)
    (hgra : ∀ e, (g e).receivedAmount = e.receivedAmount)
    (hgri : ∀ e, (g e).receivedInterest = e.receivedInterest)
    {a b : Loan}
    (hid : b.id = a.id) (hint : b.interest = a.interest)
    (hiba : b.initBalanceAmount = a.initBalanceAmount)
    (hibi : b.initBalanceInterest = a.initBalanceInterest)
    (hba : b.balanceAmount = a.balanceAmount)
    (hbi : b.balanceInterest = a.balanceInterest)
    (hFold : LoanFoldInv es a) : LoanFoldInv (es.map g) b := by
  unfold LoanFoldInv at hFold ⊢
  rw [hid, hint, hiba, hibi, hba, hbi, entriesFor_map g hgl, foldBalances_map_eq g hgra hgri]
  exact hFold

theorem inv_deleteLoan {db db' : DB} {id : Nat} (hInv : Inv db)
    (h : deleteLoanOp db id = .ok db') : Inv db' := by
  unfold deleteLoanOp at h
  split at h
  case isTrue => exact absurd h (by simp)
  case isFalse hne =>
    split at h
    case h_1 => exact absurd h (by simp)
    case h_2 existing hfind =>
      split at h
      case h_1 => exact absurd h (by simp)
      case h_2 hdel =>
        injection h with h
        subst h
        have hgl : ∀ e : Entry,
            (if e.loanId == id && e.deletedAt == none then
              { e with deletedAt := some db.now } else e).loanId = e.loanId := by
          intro e; split <;> rfl
        have hgra : ∀ e : Entry,
            (if e.loanId == id && e.deletedAt == none then
              { e with deletedAt := some db.now } else e).receivedAmount
              = e.receivedAmount := by
          intro e; split <;> rfl
        have hgri : ∀ e : Entry,
            (if e.loanId == id && e.deletedAt == none then
              { e with deletedAt := some db.now } else e).receivedInterest
              = e.receivedInterest := by
          intro e; split <;> rfl
        have hfid : ∀ a : Loan,
            (if a.id == id then { a with deletedAt := some db.now } else a).id = a.id := by
          intro a; split <;> rfl
        refine ⟨hInv.nextPos, ?_, ?_, ?_, ?_, ?_, ?_⟩
        · intro l hl
          obtain ⟨a, haMem, rfl⟩ := List.mem_map.mp hl
          simp only [hfid a]
          exact hInv.loanIds a haMem
        · rw [List.pairwise_map]
          refine hInv.loanIdsDistinct.imp ?_
          intro a b hab
          simp only [hfid a, hfid b]
          exact hab
        · intro e he
          obtain ⟨x, hxMem, rfl⟩ := List.mem_map.mp he
          simp only [hgl x]
          exact hInv.entryLoanIds x hxMem
        · intro l hl
          obtain ⟨a, haMem, rfl⟩ := List.mem_map.mp hl
          refine loanFoldInv_map hgl hgra hgri ?_ ?_ ?_ ?_ ?_ ?_ (hInv.foldOk a haMem)
            <;> split <;> rfl
        · intro l hl hlive e he heid
          obtain ⟨a, haMem, rfl⟩ := List.mem_map.mp hl
          obtain ⟨x, hxMem, rfl⟩ := List.mem_map.mp he
          by_cases hcase : a.id = id
          · exfalso
            simp [hcase] at hlive
          · have hfa : (if a.id == id then { a with deletedAt := some db.now } else a) = a := by
              simp [hcase]
            rw [hfa] at hlive heid
            rw [hgl x] at heid
            have hx : x.deletedAt = none := hInv.liveOwnsLive a haMem hlive x hxMem heid
            have hxid : x.loanId ≠ id := fun hcon => hcase (heid ▸ hcon ▸ rfl)
            simp [hxid, hx]
        · intro l hl
          obtain ⟨a, haMem, rfl⟩ := List.mem_map.mp hl
          have ha := hInv.nonneg a haMem
          split <;> exact ha

theorem inv_restoreLoan {db db' : DB} {id : Nat} (hInv : Inv db)
    (h : restoreLoanOp db id = .ok db') : Inv db' := by
  unfold restoreLoanOp at h
  split at h
  case isTrue => exact absurd h (by simp)
  case isFalse hne =>
    split at h
    case h_1 => exact absurd h (by simp)
    case h_2 loan hfind =>
      split at h
      case h_1 => exact absurd h (by simp)
      case h_2 hdel =>
        injection h with h
        subst h
        have hgl : ∀ e : Entry,
            (if e.loanId == id && e.deletedAt != none then
              { e with deletedAt := none } else e).loanId = e.loanId := by
          intro e; split <;> rfl
        have hgra : ∀ e : Entry,
            (if e.loanId == id && e.deletedAt != none then
              { e with deletedAt := none } else e).receivedAmount = e.receivedAmount := by
          intro e; split <;> rfl
        have hgri : ∀ e : Entry,
            (if e.loanId == id && e.deletedAt != none then
              { e with deletedAt := none } else e).receivedInterest = e.receivedInterest := by
          intro e; split <;> rfl
        have hfid : ∀ a : Loan,
            (if a.id == id then { a with deletedAt := none } else a).id = a.id := by
          intro a; split <;> rfl
        refine ⟨hInv.nextPos, ?_, ?_, ?_, ?_, ?_, ?_⟩
        · intro l hl
          obtain ⟨a, haMem, rfl⟩ := List.mem_map.mp hl
          simp only [hfid a]
          exact hInv.loanIds a haMem
        · rw [List.pairwise_map]
          refine hInv.loanIdsDistinct.imp ?_
          intro a b hab
          simp only [hfid a, hfid b]
          exact hab
        · intro e he
          obtain ⟨x, hxMem, rfl⟩ := List.mem_map.mp he
          simp only [hgl x]
          exact hInv.entryLoanIds x hxMem
        · intro l hl
          obtain ⟨a, haMem, rfl⟩ := List.mem_map.mp hl
          refine loanFoldInv_map hgl hgra hgri ?_ ?_ ?_ ?_ ?_ ?_ (hInv.foldOk a haMem)
            <;> split <;> rfl
        · intro l hl hlive e he heid
          obtain ⟨a, haMem, rfl⟩ := List.mem_map.mp hl
          obtain ⟨x, hxMem, rfl⟩ := List.mem_map.mp he
          rw [hgl x] at heid
          rw [hfid a] at heid
          by_cases hcase : a.id = id
          · have hxid : (x.loanId == id) = true := by
              simp [heid ▸ hcase]
            by_cases hxdel : x.deletedAt = none
            · simp [hxid, hxdel]
            · simp [hxid, hxdel]
          · have hfa : (if a.id == id then { a with deletedAt := none } else a) = a := by
              simp [hcase]
            rw [hfa] at hlive
            have hx : x.deletedAt = none := hInv.liveOwnsLive a haMem hlive x hxMem heid
            have hxid : x.loanId ≠ id := fun hcon => hcase (heid ▸ hcon ▸ rfl)
            simp [hxid, hx]
        · intro l hl
          obtain ⟨a, haMem, rfl⟩ := List.mem_map.mp hl
          have ha := hInv.nonneg a haMem
          split <;> exact ha

theorem inv_restoreEntry {db db' : DB} {id : Nat} (hInv : Inv db)
    (h : restoreEntryOp db id = .ok db') : Inv db' := by
  unfold restoreEntryOp at h
  split at h
  case isTrue => exact absurd h (by simp)
  case isFalse hne =>
    split at h
    case h_1 => exact absurd h (by simp)
    case h_2 entry hfind =>
      split at h
      case h_1 => exact absurd h (by simp)
      case h_2 hdel =>
        injection h with h
        subst h
        have hgl : ∀ e : Entry,
            (if e.id == id then { e with deletedAt := none } else e).loanId = e.loanId := by
          intro e; split <;> rfl
        have hgra : ∀ e : Entry,
            (if e.id == id then { e with deletedAt := none } else e).receivedAmount
              = e.receivedAmount := by
          intro e; split <;> rfl
        have hgri : ∀ e : Entry,
            (if e.id == id then { e with deletedAt := none } else e).receivedInterest
              = e.receivedInterest := by
          intro e; split <;> rfl
        refine ⟨hInv.nextPos, hInv.loanIds, hInv.loanIdsDistinct, ?_, ?_, ?_, hInv.nonneg⟩
        · intro e he
          obtain ⟨x, hxMem, rfl⟩ := List.mem_map.mp he
          simp only [hgl x]
          exact hInv.entryLoanIds x hxMem
        · intro l hl
          refine loanFoldInv_map hgl hgra hgri rfl rfl rfl rfl rfl rfl (hInv.foldOk l hl)
        · intro l hl hlive e he heid
          obtain ⟨x, hxMem, rfl⟩ := List.mem_map.mp he
          rw [hgl x] at heid
          have hx : x.deletedAt = none := hInv.liveOwnsLive l hl hlive x hxMem heid
          by_cases hxid : x.id = id
          · simp [hxid]
          · simp [hxid, hx]

theorem inv_createEntry {db db' : DB} {loanId : Nat} {entryDate : Int}
    {receivedDate : Option Int} {receivedAmountReq receivedInterestReq : Option ℚ}
    (hInv : Inv db)
    (h : createEntryOp db loanId entryDate receivedDate receivedAmountReq receivedInterestReq
          = .ok db') : Inv db' := by
  unfold createEntryOp at h
  split at h
  case isFalse => exact absurd h (by simp)
  case isTrue hc =>
    obtain ⟨hlid, hraOk, hriOk⟩ := hc
    split at h
    case h_1 => exact absurd h (by simp)
    case h_2 loan hfind =>
      injection h with h
      subst h
      have hloanMem : loan ∈ db.loans := List.mem_of_find?_eq_some hfind
      have hloanId : loan.id = loanId := by simpa using List.find?_some hfind
      refine ⟨hInv.nextPos, ?_, ?_, ?_, ?_, ?_, ?_⟩
      · intro l hl
        obtain ⟨a, haMem, rfl⟩ := List.mem_map.mp hl
        have ha := hInv.loanIds a haMem
        dsimp only
        split
        · exact ha
        · exact ha
      · rw [List.pairwise_map]
        refine hInv.loanIdsDistinct.imp ?_
        intro a b hab
        dsimp only
        split
        · split
          · exact hab
          · exact hab
        · split
          · exact hab
          · exact hab
      · intro e he
        rcases List.mem_append.mp he with he | he
        · exact hInv.entryLoanIds e he
        · simp only [List.mem_singleton] at he
          subst he
          show loanId < db.nextLoanId
          exact hloanId ▸ (hInv.loanIds loan hloanMem).2
      · intro l hl
        obtain ⟨a, haMem, rfl⟩ := List.mem_map.mp hl
        unfold LoanFoldInv
        by_cases hcase : a.id = loanId
        · have haEq : a = loan :=
            eq_of_pairwise_ne hInv.loanIdsDistinct haMem hloanMem (by rw [hcase, hloanId])
          subst haEq
          have hbeq : (a.id == loanId) = true := by simpa using hcase
          have hbeq2 : (loanId == a.id) = true := by simpa using hcase.symm
          have hold := hInv.foldOk a haMem
          unfold LoanFoldInv at hold
          simp only [hbeq, if_true]
          simp only [entriesFor_append_single, hbeq2, if_true]
          rw [foldBalances_append_single, hold]
          rfl
        · have hbeq : (a.id == loanId) = false := by simpa using hcase
          have hbeq2 : (loanId == a.id) = false := by simpa using (Ne.symm hcase)
          simp only [hbeq, Bool.false_eq_true, if_false]
          simp only [entriesFor_append_single, hbeq2, Bool.false_eq_true, if_false,
            List.append_nil]
          exact hInv.foldOk a haMem
      · intro l hl hlive e he heid
        obtain ⟨a, haMem, rfl⟩ := List.mem_map.mp hl
        rcases List.mem_append.mp he with he | he
        · by_cases hcase : a.id = loanId
          · have hbeq : (a.id == loanId) = true := by simpa using hcase
            simp only [hbeq, if_true] at hlive heid
            exact hInv.liveOwnsLive a haMem hlive e he heid
          · have hbeq : (a.id == loanId) = false := by simpa using hcase
            simp only [hbeq, Bool.false_eq_true, if_false] at hlive heid
            exact hInv.liveOwnsLive a haMem hlive e he heid
        · simp only [List.mem_singleton] at he
          subst he
          rfl
      · intro l hl
        obtain ⟨a, haMem, rfl⟩ := List.mem_map.mp hl
        have ha := hInv.nonneg a haMem
        split
        · exact ⟨le_max_left 0 _, le_max_left 0 _, ha.2.2⟩
        · exact ha

theorem inv_applyOp {db db' : DB} {op : Op} (hInv : Inv db)
    (h : applyOp db op = .ok db') : Inv db' := by
  cases op with
  | createLoan partyId loanDate loanAmount balanceAmountReq interest balanceInterest =>
      exact inv_createLoan hInv h
  | createEntry loanId entryDate receivedDate receivedAmountReq receivedInterestReq =>
      exact inv_createEntry hInv h
  | deleteLoan id => exact inv_deleteLoan hInv h
  | restoreLoan id => exact inv_restoreLoan hInv h
  | restoreEntry id => exact inv_restoreEntry hInv h

/-- Every database reachable through the core operations satisfies the
invariant. -/
theorem reachable_inv {db : DB} (h : Reachable db) : Inv db := by
  induction h with
  | base => exact inv_initDB
  | step _ hok ih => exact inv_applyOp ih hok

theorem reachable_applyStep {db : DB} (op : Op) (h : Reachable db) :
    Reachable (applyStep db op) := by
  unfold applyStep
  split
  case h_1 db' hok => exact Reachable.step h hok
  case h_2 => exact h

theorem reachable_run (ops : List Op) {db : DB} (h : Reachable db) :
    Reachable (run ops db) := by
  induction ops generalizing db with
  | nil => exact h
  | cons op ops ih =>
    show Reachable (run ops (applyStep db op))
    exact ih (reachable_applyStep op h)

/-! ## Claim theorems -/

/-- C1: the balance calculator invoked by entry posting returns
`interestAmount = b * r / 100`,
`newBalanceInterest = max 0 (i + b * r / 100 - ri)` and
`newBalanceAmount = max 0 (b - ra)` for non-negative inputs; in particular
for `b = 1000, r = 5, i = 50, ri = 30` it returns
`interestAccruedThisPeriod = 50`, `totalInterestDue = 100` and
`newBalanceInterest = 70`. -/
theorem C1_balance_calculator_formula (b i r ra ri : ℚ)
    (hb : 0 ≤ b) (hi : 0 ≤ i) (hr : 0 ≤ r) (hra : 0 ≤ ra) (hri : 0 ≤ ri) :
    (calculateUpdatedLoanBalances ⟨b, i, r⟩ ra ri).interestAmount = b * r / 100 ∧
    (calculateUpdatedLoanBalances ⟨b, i, r⟩ ra ri).newBalanceInterest
      = max 0 (i + b * r / 100 - ri) ∧
    (calculateUpdatedLoanBalances ⟨b, i, r⟩ ra ri).newBalanceAmount = max 0 (b - ra) ∧
    (calculateUpdatedLoanBalances ⟨1000, 50, 5⟩ 0 30).interestAmount = 50 ∧
    (calculateUpdatedLoanBalances ⟨1000, 50, 5⟩ 0 30).totalInterestBeforePayment = 100 ∧
    (calculateUpdatedLoanBalances ⟨1000, 50, 5⟩ 0 30).newBalanceInterest = 70 := by
  refine ⟨rfl, rfl, rfl, ?_, ?_, ?_⟩ <;> simp [calculateUpdatedLoanBalances] <;> norm_num

/-- Witness for C1 at `b = 1000, i = 50, r = 5, ra = 0, ri = 30`. -/
theorem C1_balance_calculator_formula_witness :
    (calculateUpdatedLoanBalances ⟨1000, 50, 5⟩ 0 30).interestAmount = 1000 * 5 / 100 ∧
    (calculateUpdatedLoanBalances ⟨1000, 50, 5⟩ 0 30).newBalanceInterest
      = max 0 (50 + 1000 * 5 / 100 - 30) ∧
    (calculateUpdatedLoanBalances ⟨1000, 50, 5⟩ 0 30).newBalanceAmount = max 0 (1000 - 0) ∧
    (calculateUpdatedLoanBalances ⟨1000, 50, 5⟩ 0 30).interestAmount = 50 ∧
    (calculateUpdatedLoanBalances ⟨1000, 50, 5⟩ 0 30).totalInterestBeforePayment = 100 ∧
    (calculateUpdatedLoanBalances ⟨1000, 50, 5⟩ 0 30).newBalanceInterest = 70 :=
  C1_balance_calculator_formula 1000 50 5 0 30 (by norm_num) (by norm_num) (by norm_num)
    (by norm_num) (by norm_num)

/-- C4 counterexample: at `balanceAmount = 1000, balanceInterest = 50,
rate = 5, receivedInterest = 30` the utils calculator reports
`interestAmount = 100` and `totalInterestBeforePayment = 150` while the
controller's inline calculator reports `50` and `100`: the two functions do
not return the same result fields, and the utils version adds the pending
`balanceInterest` twice. -/
theorem C4_counterexample :
    (calculateUpdatedLoanBalancesUtils ⟨1000, 50, 5⟩ 0 30).interestAmount = 100 ∧
    (calculateUpdatedLoanBalances ⟨1000, 50, 5⟩ 0 30).interestAmount = 50 ∧
    (calculateUpdatedLoanBalancesUtils ⟨1000, 50, 5⟩ 0 30).totalInterestBeforePayment = 150 ∧
    (calculateUpdatedLoanBalances ⟨1000, 50, 5⟩ 0 30).totalInterestBeforePayment = 100 ∧
    calculateUpdatedLoanBalancesUtils ⟨1000, 50, 5⟩ 0 30
      ≠ calculateUpdatedLoanBalances ⟨1000, 50, 5⟩ 0 30 := by
  refine ⟨?_, ?_, ?_, ?_, ?_⟩
  case _ => simp [calculateUpdatedLoanBalancesUtils]; norm_num
  case _ => simp [calculateUpdatedLoanBalances]; norm_num
  case _ => simp [calculateUpdatedLoanBalancesUtils]; norm_num
  case _ => simp [calculateUpdatedLoanBalances]; norm_num
  case _ =>
    intro h
    have h2 := congrArg BalanceCalcResult.interestAmount h
    simp [calculateUpdatedLoanBalancesUtils, calculateUpdatedLoanBalances] at h2
    try norm_num at h2

/-- C4 amended: the utils calculator and the controller's inline calculator
agree on `newBalanceAmount` and `interestOnBalance` for every input, and
agree on every field exactly when the pending `balanceInterest` is zero; in
general the utils version reports `interestAmount` larger by
`balanceInterest` and `totalInterestBeforePayment` larger by
`balanceInterest` (counting it twice rather than once). -/
theorem C4_utils_vs_controller (loan : LoanBalances) (ra ri : ℚ) :
    (calculateUpdatedLoanBalancesUtils loan ra ri).newBalanceAmount
      = (calculateUpdatedLoanBalances loan ra ri).newBalanceAmount ∧
    (calculateUpdatedLoanBalancesUtils loan ra ri).interestOnBalance
      = (calculateUpdatedLoanBalances loan ra ri).interestOnBalance ∧
    (calculateUpdatedLoanBalancesUtils loan ra ri).interestAmount
      = (calculateUpdatedLoanBalances loan ra ri).interestAmount + loan.balanceInterest ∧
    (calculateUpdatedLoanBalancesUtils loan ra ri).totalInterestBeforePayment
      = (calculateUpdatedLoanBalances loan ra ri).totalInterestBeforePayment
          + loan.balanceInterest ∧
    (calculateUpdatedLoanBalancesUtils loan ra ri).newBalanceInterest
      = max 0 ((calculateUpdatedLoanBalances loan ra ri).totalInterestBeforePayment
          + loan.balanceInterest - ri) ∧
    calculateUpdatedLoanBalancesUtils ⟨loan.balanceAmount, 0, loan.interest⟩ ra ri
      = calculateUpdatedLoanBalances ⟨loan.balanceAmount, 0, loan.interest⟩ ra ri := by
  refine ⟨rfl, rfl, ?_, ?_, ?_, ?_⟩
  case _ => simp [calculateUpdatedLoanBalancesUtils, calculateUpdatedLoanBalances]; try ring
  case _ => simp [calculateUpdatedLoanBalancesUtils, calculateUpdatedLoanBalances]; try ring
  case _ =>
    simp [calculateUpdatedLoanBalancesUtils, calculateUpdatedLoanBalances]; try ring_nf
  case _ =>
    simp [calculateUpdatedLoanBalancesUtils, calculateUpdatedLoanBalances]

/-- The loan created by `createLoan(partyId 1, loanDate 0, loanAmount 1000,
interest 10, balanceInterest 5)` with `balanceAmount` omitted. -/
def c2cexLoan : Loan :=
  { id := 1, partyId := 1, loanDate := 0, loanAmount := 1000, balanceAmount := 1000,
    interest := 10, balanceInterest := 5, totalInterestAmount := 5, deletedAt := none,
    initBalanceAmount := 1000, initBalanceInterest := 5 }

/-- The database after that single loan creation. -/
def c2cexDB : DB :=
  { loans := [c2cexLoan], entries := [], nextLoanId := 2, nextEntryId := 1, now := 1 }

theorem c2cexDB_step :
    applyOp initDB (Op.createLoan 1 0 1000 none 10 5) = .ok c2cexDB := by
  show createLoanOp initDB 1 0 1000 none 10 5 = .ok c2cexDB
  unfold createLoanOp
  rw [if_pos]
  · rfl
  · exact ⟨by norm_num, by norm_num, by simp [optNonneg], by norm_num, by norm_num⟩

theorem c2cexDB_reachable : Reachable c2cexDB :=
  Reachable.step Reachable.base c2cexDB_step

/-- C2 counterexample: after the single core operation
`createLoan(loanAmount 1000, interest 10, balanceInterest 5)` the stored pair
is `(1000, 5)` but folding the balance calculator over the loan's live entries
(there are none) in entryDate order starting from `(principal, 0)` gives
`(1000, 0)`: the claimed invariant fails on a reachable, live loan. -/
theorem C2_counterexample :
    Reachable c2cexDB ∧
    c2cexDB.loans = [c2cexLoan] ∧
    c2cexLoan.deletedAt = none ∧
    specFoldLiveByDate c2cexDB c2cexLoan = (1000, 0) ∧
    (c2cexLoan.balanceAmount, c2cexLoan.balanceInterest) = (1000, 5) ∧
    specFoldLiveByDate c2cexDB c2cexLoan
      ≠ (c2cexLoan.balanceAmount, c2cexLoan.balanceInterest) := by
  have hfold : specFoldLiveByDate c2cexDB c2cexLoan = ((1000 : ℚ), (0 : ℚ)) := rfl
  have hstored : (c2cexLoan.balanceAmount, c2cexLoan.balanceInterest)
      = ((1000 : ℚ), (5 : ℚ)) := rfl
  refine ⟨c2cexDB_reachable, rfl, rfl, hfold, hstored, ?_⟩
  rw [hfold, hstored]
  intro hcon
  have h5 := congrArg Prod.snd hcon
  norm_num at h5

/-- C2 amended: for every reachable database and every loan in it that is not
soft-deleted, the loan's live entries are exactly all of its entries, and
folding the balance calculator over them in the order they were posted,
starting from the balances the loan was created with (its creation-time
`(balanceAmount, balanceInterest)`, not `(principal, 0)`), reproduces the
stored pair `(balanceAmount, balanceInterest)` exactly. -/
theorem C2_fold_consistency {db : DB} (hdb : Reachable db) (l : Loan)
    (hl : l ∈ db.loans) (hlive : l.deletedAt = none) :
    liveEntriesFor db.entries l.id = entriesFor db.entries l.id ∧
    foldBalances l.interest (l.initBalanceAmount, l.initBalanceInterest)
        (liveEntriesFor db.entries l.id)
      = (l.balanceAmount, l.balanceInterest) := by
  have hInv := reachable_inv hdb
  have hlf := liveEntriesFor_eq_entriesFor
    (fun e he heid => hInv.liveOwnsLive l hl hlive e he heid)
  refine ⟨hlf, ?_⟩
  rw [hlf]
  exact hInv.foldOk l hl

/-- Witness for C2 amended at the database reached by one loan creation. -/
theorem C2_fold_consistency_witness :
    liveEntriesFor c2cexDB.entries c2cexLoan.id = entriesFor c2cexDB.entries c2cexLoan.id ∧
    foldBalances c2cexLoan.interest
        (c2cexLoan.initBalanceAmount, c2cexLoan.initBalanceInterest)
        (liveEntriesFor c2cexDB.entries c2cexLoan.id)
      = (c2cexLoan.balanceAmount, c2cexLoan.balanceInterest) :=
  C2_fold_consistency c2cexDB_reachable c2cexLoan (by simp [c2cexDB]) rfl

/-- C3: in every reachable database every loan has
`balanceAmount ≥ 0` and `balanceInterest ≥ 0` (so in particular after every
posting of non-negative payments against a loan created with non-negative
balances and rate), and posting `receivedAmount = 150` against
`balanceAmount = 100` yields `newBalanceAmount = 0`, never a negative value,
whatever the pending interest, rate and interest payment are. -/
theorem C3_balances_nonneg {db : DB} (hdb : Reachable db) (l : Loan) (hl : l ∈ db.loans)
    (i r ri : ℚ) :
    (0 ≤ l.balanceAmount ∧ 0 ≤ l.balanceInterest) ∧
    (calculateUpdatedLoanBalances ⟨100, i, r⟩ 150 ri).newBalanceAmount = 0 := by
  have hInv := reachable_inv hdb
  refine ⟨⟨(hInv.nonneg l hl).1, (hInv.nonneg l hl).2.1⟩, ?_⟩
  simp only [calculateUpdatedLoanBalances]
  norm_num

/-- Witness for C3 at the reachable single-loan database. -/
theorem C3_balances_nonneg_witness :
    (0 ≤ c2cexLoan.balanceAmount ∧ 0 ≤ c2cexLoan.balanceInterest) ∧
    (calculateUpdatedLoanBalances ⟨100, 50, 5⟩ 150 30).newBalanceAmount = 0 :=
  C3_balances_nonneg c2cexDB_reachable c2cexLoan (by simp [c2cexDB]) 50 5 30

/-- A loan created live and then soft-deleted: the creation-time record. -/
def c5LoanLive : Loan :=
  { id := 1, partyId := 1, loanDate := 0, loanAmount := 100, balanceAmount := 100,
    interest := 0, balanceInterest := 0, totalInterestAmount := 0, deletedAt := none,
    initBalanceAmount := 100, initBalanceInterest := 0 }

/-- Database after creating that loan. -/
def c5DBLive : DB :=
  { loans := [c5LoanLive], entries := [], nextLoanId := 2, nextEntryId := 1, now := 1 }

/-- The same loan after `deleteLoan` stamped it at time 1. -/
def c5Loan : Loan := { c5LoanLive with deletedAt := some 1 }

/-- Database holding exactly one loan, and that loan is soft-deleted. -/
def c5DB : DB :=
  { loans := [c5Loan], entries := [], nextLoanId := 2, nextEntryId := 1, now := 2 }

theorem c5DB_step1 : applyOp initDB (Op.createLoan 1 0 100 none 0 0) = .ok c5DBLive := by
  show createLoanOp initDB 1 0 100 none 0 0 = .ok c5DBLive
  unfold createLoanOp
  rw [if_pos]
  · rfl
  · exact ⟨by norm_num, by norm_num, by simp [optNonneg], by norm_num, by norm_num⟩

theorem c5DB_step2 : applyOp c5DBLive (Op.deleteLoan 1) = .ok c5DB := rfl

theorem c5DB_reachable : Reachable c5DB :=
  Reachable.step (Reachable.step Reachable.base c5DB_step1) c5DB_step2

/-- The entry `createEntry` inserts against the soft-deleted loan. -/
def c5Entry : Entry :=
  { id := 1, loanId := 1, entryDate := 0, balanceAmount := 100, interestAmount := 0,
    receivedDate := none, receivedAmount := none, receivedInterest := none,
    deletedAt := none }

/-- Database after posting against the soft-deleted loan. -/
def c5DBAfter : DB :=
  { loans := [c5Loan], entries := [c5Entry], nextLoanId := 2, nextEntryId := 2, now := 3 }

/-- C5 counterexample: `c5DB` is reachable and its only loan row (id 1) is
soft-deleted, yet `createEntry` against id 1 does not fail with NotFound — it
succeeds and writes the entry. -/
theorem C5_counterexample :
    Reachable c5DB ∧
    c5DB.loans = [c5Loan] ∧
    c5Loan.deletedAt = some 1 ∧
    createEntryOp c5DB 1 0 none none none = .ok c5DBAfter ∧
    c5DBAfter.entries = [c5Entry] := by
  refine ⟨c5DB_reachable, rfl, rfl, ?_, rfl⟩
  unfold createEntryOp
  rw [if_pos ⟨by norm_num, by simp [optNonneg], by simp [optNonneg]⟩]
  have hfind : c5DB.loans.find? (fun l => l.id == 1) = some c5Loan := rfl
  rw [hfind]
  refine congrArg Except.ok ?_
  simp only [c5DB, c5DBAfter, c5Loan, c5LoanLive, c5Entry, calculateUpdatedLoanBalances,
    DB.mk.injEq, List.cons.injEq, Loan.mk.injEq, Entry.mk.injEq, List.map_cons,
    List.map_nil, List.nil_append]
  norm_num

/-- C5 amended: given inputs that pass validation, `createEntry` fails with
NotFound exactly when no loan row with that id exists at all; when a row
exists — soft-deleted or not — the posting succeeds and appends an entry. -/
theorem C5_notfound_only_when_missing {db : DB} {loanId : Nat} {entryDate : Int}
    {receivedDate : Option Int} {ra ri : Option ℚ}
    (hval : loanId ≠ 0 ∧ optNonneg ra = true ∧ optNonneg ri = true) :
    (db.loans.find? (fun l => l.id == loanId) = none →
      createEntryOp db loanId entryDate receivedDate ra ri
        = .error (.notFound "Loan not found")) ∧
    (∀ loan, db.loans.find? (fun l => l.id == loanId) = some loan →
      ∃ db', createEntryOp db loanId entryDate receivedDate ra ri = .ok db' ∧
        db'.entries.length = db.entries.length + 1) := by
  constructor
  · intro hnone
    unfold createEntryOp
    rw [if_pos hval, hnone]
  · intro loan hfind
    unfold createEntryOp
    rw [if_pos hval, hfind]
    exact ⟨_, rfl, by simp⟩

/-- Witness for C5 amended: id 2 names no loan row in `c5DB`, so the posting
fails with NotFound. -/
theorem C5_notfound_only_when_missing_witness :
    createEntryOp c5DB 2 0 none none none = .error (.notFound "Loan not found") :=
  (C5_notfound_only_when_missing
    ⟨by norm_num, by simp [optNonneg], by simp [optNonneg]⟩).1 rfl

/-- A live loan with one live entry of its own and one entry of another
loan, used to exercise the delete cascade. -/
def c6Loan : Loan :=
  { id := 1, partyId := 1, loanDate := 0, loanAmount := 100, balanceAmount := 80,
    interest := 5, balanceInterest := 2, totalInterestAmount := 3, deletedAt := none,
    initBalanceAmount := 100, initBalanceInterest := 0 }

/-- A live entry belonging to `c6Loan`. -/
def c6EntryA : Entry :=
  { id := 1, loanId := 1, entryDate := 10, balanceAmount := 100, interestAmount := 5,
    receivedDate := none, receivedAmount := some 20, receivedInterest := some 3,
    deletedAt := none }

/-- A live entry belonging to a different loan (id 2). -/
def c6EntryB : Entry :=
  { id := 2, loanId := 2, entryDate := 11, balanceAmount := 50, interestAmount := 1,
    receivedDate := none, receivedAmount := none, receivedInterest := none,
    deletedAt := none }

/-- Fixture database for the delete-cascade witness. -/
def c6DB : DB :=
  { loans := [c6Loan], entries := [c6EntryA, c6EntryB], nextLoanId := 3,
    nextEntryId := 3, now := 9 }

/-- C6: `deleteLoan` fails with the already-deleted error whenever the loan's
`deletedAt` is set, and on a live loan it succeeds in one atomic step that
stamps `deletedAt = now` on the loan and on every currently-live entry of the
loan with the one shared timestamp `db.now`, leaves entries of other loans and
already-deleted entries untouched, removes or adds no rows, and leaves other
loans unchanged — so no state with the loan in the bin but its entries live
(or vice versa) exists. -/
theorem C6_soft_delete_cascade {db : DB} {id : Nat} {l : Loan}
    (hid : id ≠ 0) (hfind : db.loans.find? (fun x => x.id == id) = some l) :
    (∀ t, l.deletedAt = some t →
      deleteLoanOp db id = .error (.badRequest "Loan is already deleted")) ∧
    (l.deletedAt = none →
      ∃ db', deleteLoanOp db id = .ok db' ∧
        (∀ x ∈ db'.loans, x.id = id → x.deletedAt = some db.now) ∧
        (∀ e ∈ db.entries, e.loanId = id → e.deletedAt = none →
          { e with deletedAt := some db.now } ∈ db'.entries) ∧
        (∀ e ∈ db.entries, e.loanId ≠ id → e ∈ db'.entries) ∧
        (∀ e ∈ db.entries, e.deletedAt ≠ none → e ∈ db'.entries) ∧
        (∀ x ∈ db.loans, x.id ≠ id → x ∈ db'.loans) ∧
        db'.entries.length = db.entries.length ∧
        db'.loans.length = db.loans.length) := by
  constructor
  · intro t ht
    unfold deleteLoanOp
    rw [if_neg hid, hfind]
    dsimp only
    rw [ht]
  · intro hl
    unfold deleteLoanOp
    rw [if_neg hid, hfind]
    dsimp only
    rw [hl]
    refine ⟨_, rfl, ?_, ?_, ?_, ?_, ?_, by simp, by simp⟩
    · intro x hx
      obtain ⟨a, haMem, rfl⟩ := List.mem_map.mp hx
      intro hxid
      by_cases hc : a.id = id
      · have hbeq : (a.id == id) = true := by simpa using hc
        simp [hbeq]
      · have hbeq : (a.id == id) = false := by simpa using hc
        simp only [hbeq, Bool.false_eq_true, if_false] at hxid
        exact absurd hxid hc
    · intro e he heid hedel
      refine List.mem_map.mpr ⟨e, he, ?_⟩
      have hbeq : (e.loanId == id && e.deletedAt == none) = true := by
        simp [heid, hedel]
      simp [hbeq]
    · intro e he hne
      refine List.mem_map.mpr ⟨e, he, ?_⟩
      have hbeq : (e.loanId == id) = false := by simpa using hne
      simp [hbeq]
    · intro e he hne
      refine List.mem_map.mpr ⟨e, he, ?_⟩
      have hbeq : (e.deletedAt == none) = false := by
        simpa using hne
      simp [hbeq]
    · intro x hx hne
      refine List.mem_map.mpr ⟨x, hx, ?_⟩
      have hbeq : (x.id == id) = false := by simpa using hne
      simp [hbeq]

/-- Witness for C6 at the fixture database: the loan is live, so the cascade
branch applies with shared timestamp 9. -/
theorem C6_soft_delete_cascade_witness :
    (∀ t, c6Loan.deletedAt = some t →
      deleteLoanOp c6DB 1 = .error (.badRequest "Loan is already deleted")) ∧
    (c6Loan.deletedAt = none →
      ∃ db', deleteLoanOp c6DB 1 = .ok db' ∧
        (∀ x ∈ db'.loans, x.id = 1 → x.deletedAt = some c6DB.now) ∧
        (∀ e ∈ c6DB.entries, e.loanId = 1 → e.deletedAt = none →
          { e with deletedAt := some c6DB.now } ∈ db'.entries) ∧
        (∀ e ∈ c6DB.entries, e.loanId ≠ 1 → e ∈ db'.entries) ∧
        (∀ e ∈ c6DB.entries, e.deletedAt ≠ none → e ∈ db'.entries) ∧
        (∀ x ∈ c6DB.loans, x.id ≠ 1 → x ∈ db'.loans) ∧
        db'.entries.length = c6DB.entries.length ∧
        db'.loans.length = c6DB.loans.length) :=
  C6_soft_delete_cascade (by norm_num) rfl

/-- Loan for the entry-restore scenario, as created. -/
def c7Loan : Loan :=
  { id := 1, partyId := 1, loanDate := 0, loanAmount := 100, balanceAmount := 100,
    interest := 0, balanceInterest := 0, totalInterestAmount := 0, deletedAt := none,
    initBalanceAmount := 100, initBalanceInterest := 0 }

/-- Database after creating `c7Loan`. -/
def c7DB1 : DB :=
  { loans := [c7Loan], entries := [], nextLoanId := 2, nextEntryId := 1, now := 1 }

/-- The entry posted against `c7Loan`. -/
def c7Entry : Entry :=
  { id := 1, loanId := 1, entryDate := 5, balanceAmount := 100, interestAmount := 0,
    receivedDate := none, receivedAmount := none, receivedInterest := none,
    deletedAt := none }

/-- Database after the posting. -/
def c7DB2 : DB :=
  { loans := [c7Loan], entries := [c7Entry], nextLoanId := 2, nextEntryId := 2, now := 2 }

/-- The loan after the delete cascade stamped it at time 2. -/
def c7LoanDel : Loan := { c7Loan with deletedAt := some 2 }

/-- The entry after the delete cascade stamped it at time 2. -/
def c7EntryDel : Entry := { c7Entry with deletedAt := some 2 }

/-- Database after `deleteLoan`: loan and entry both in the bin. -/
def c7DB3 : DB :=
  { loans := [c7LoanDel], entries := [c7EntryDel], nextLoanId := 2, nextEntryId := 2,
    now := 3 }

/-- Database after restoring the single entry: live entry, in-bin loan. -/
def c7DB4 : DB :=
  { loans := [c7LoanDel], entries := [c7Entry], nextLoanId := 2, nextEntryId := 2,
    now := 4 }

theorem c7DB_step1 : applyOp initDB (Op.createLoan 1 0 100 none 0 0) = .ok c7DB1 := by
  show createLoanOp initDB 1 0 100 none 0 0 = .ok c7DB1
  unfold createLoanOp
  rw [if_pos]
  · rfl
  · exact ⟨by norm_num, by norm_num, by simp [optNonneg], by norm_num, by norm_num⟩

theorem c7DB_step2 : applyOp c7DB1 (Op.createEntry 1 5 none none none) = .ok c7DB2 := by
  show createEntryOp c7DB1 1 5 none none none = .ok c7DB2
  unfold createEntryOp
  rw [if_pos ⟨by norm_num, by simp [optNonneg], by simp [optNonneg]⟩]
  have hfind : c7DB1.loans.find? (fun l => l.id == 1) = some c7Loan := rfl
  rw [hfind]
  refine congrArg Except.ok ?_
  simp only [c7DB1, c7DB2, c7Loan, c7Entry, calculateUpdatedLoanBalances,
    DB.mk.injEq, List.cons.injEq, Loan.mk.injEq, Entry.mk.injEq, List.map_cons,
    List.map_nil, List.nil_append]
  norm_num

theorem c7DB_step3 : applyOp c7DB2 (Op.deleteLoan 1) = .ok c7DB3 := rfl

theorem c7DB3_reachable : Reachable c7DB3 :=
  Reachable.step (Reachable.step (Reachable.step Reachable.base c7DB_step1) c7DB_step2)
    c7DB_step3

/-- C7 counterexample: in the reachable state `c7DB3` the only loan is in the
bin and its only entry is in the bin; restoring that single entry is *not*
rejected — it succeeds, leaving a live entry attached to an in-bin loan. -/
theorem C7_counterexample :
    Reachable c7DB3 ∧
    c7DB3.loans = [c7LoanDel] ∧
    c7LoanDel.deletedAt = some 2 ∧
    c7DB3.entries = [c7EntryDel] ∧
    c7EntryDel.deletedAt = some 2 ∧
    restoreEntryOp c7DB3 1 = .ok c7DB4 ∧
    c7DB4.entries = [c7Entry] ∧
    c7Entry.deletedAt = none ∧
    c7DB4.loans = [c7LoanDel] :=
  ⟨c7DB3_reachable, rfl, rfl, rfl, rfl, rfl, rfl, rfl, rfl⟩

/-- C7 amended: `restoreEntry` restores any soft-deleted entry regardless of
the parent loan's state — it succeeds, never touches the loans table, and
makes the entry live even when its parent loan is itself soft-deleted. -/
theorem C7_restore_entry_ignores_loan {db : DB} {id t : Nat} {e : Entry}
    (hid : id ≠ 0) (hfind : db.entries.find? (fun x => x.id == id) = some e)
    (hdel : e.deletedAt = some t) :
    ∃ db', restoreEntryOp db id = .ok db' ∧ db'.loans = db.loans ∧
      { e with deletedAt := none } ∈ db'.entries := by
  unfold restoreEntryOp
  rw [if_neg hid, hfind]
  dsimp only
  rw [hdel]
  refine ⟨_, rfl, rfl, ?_⟩
  refine List.mem_map.mpr ⟨e, List.mem_of_find?_eq_some hfind, ?_⟩
  have hbeq : (e.id == id) = true := by simpa using List.find?_some hfind
  simp [hbeq]

/-- Witness for C7 amended at `c7DB3`, whose loan is in the bin. -/
theorem C7_restore_entry_ignores_loan_witness :
    ∃ db', restoreEntryOp c7DB3 1 = .ok db' ∧ db'.loans = c7DB3.loans ∧
      { c7EntryDel with deletedAt := none } ∈ db'.entries :=
  C7_restore_entry_ignores_loan (by norm_num) rfl rfl

theorem head_insertByDateDesc (e : Entry) (l : List Entry) :
    ((insertByDateDesc e l).head?).map Entry.entryDate
      = some (match (l.head?).map Entry.entryDate with
              | none => e.entryDate
              | some m => max e.entryDate m) := by
  cases l with
  | nil => simp [insertByDateDesc]
  | cons x xs =>
    simp only [insertByDateDesc]
    by_cases h : x.entryDate ≤ e.entryDate
    · rw [if_pos h]
      simp [max_eq_left h]
    · rw [if_neg h]
      simp [max_eq_right (le_of_lt (not_le.mp h))]

theorem sortDesc_head_eq_maxEntryDate (es : List Entry) :
    ((sortByEntryDateDesc es).head?).map Entry.entryDate = maxEntryDate es := by
  induction es with
  | nil => rfl
  | cons e es ih =>
    show ((insertByDateDesc e (sortByEntryDateDesc es)).head?).map Entry.entryDate = _
    rw [head_insertByDateDesc, ih]
    rfl

/-- Loan fixture for the preview query: live, originated at time 0. -/
def c8Loan : Loan :=
  { id := 1, partyId := 1, loanDate := 0, loanAmount := 100, balanceAmount := 100,
    interest := 0, balanceInterest := 0, totalInterestAmount := 0, deletedAt := none,
    initBalanceAmount := 100, initBalanceInterest := 0 }

/-- A soft-deleted entry of that loan dated one day after origination. -/
def c8Entry : Entry :=
  { id := 1, loanId := 1, entryDate := 86400000, balanceAmount := 100,
    interestAmount := 0, receivedDate := none, receivedAmount := none,
    receivedInterest := none, deletedAt := some 1 }

/-- Fixture database: a live loan whose only entry is soft-deleted. -/
def c8DB : DB :=
  { loans := [c8Loan], entries := [c8Entry], nextLoanId := 2, nextEntryId := 2, now := 2 }

/-- C8 counterexample: the loan is live and has no live entries, so the claim
says `nextEntryDate = loanDate + 30 days`; but the implementation's
latest-entry query has no `deletedAt` filter, so it returns the soft-deleted
entry's date plus 30 days instead. -/
theorem C8_counterexample :
    c8Loan.deletedAt = none ∧
    c8Entry.deletedAt = some 1 ∧
    Except.map LoanDetails.nextEntryDate (getLoanDetailsForEntry c8DB 1)
      = Except.ok (86400000 + thirtyDaysMs) ∧
    specNextEntryDate c8DB c8Loan = 0 + thirtyDaysMs ∧
    Except.map LoanDetails.nextEntryDate (getLoanDetailsForEntry c8DB 1)
      ≠ Except.ok (specNextEntryDate c8DB c8Loan) := by
  refine ⟨rfl, rfl, rfl, rfl, ?_⟩
  intro hcon
  rw [show Except.map LoanDetails.nextEntryDate (getLoanDetailsForEntry c8DB 1)
        = Except.ok ((86400000 : Int) + thirtyDaysMs) from rfl,
      show specNextEntryDate c8DB c8Loan = (0 : Int) + thirtyDaysMs from rfl] at hcon
  injection hcon with hcon
  norm_num [thirtyDaysMs] at hcon

/-- C8 amended: for any loan row found by id (the lookup does not require the
loan to be live), the preview succeeds and `nextEntryDate` is the maximum
`entryDate` over *all* of the loan's entries — soft-deleted ones included —
or the loan's `loanDate` if it has none, plus exactly 30 days. -/
theorem C8_next_entry_date {db : DB} {loanId : Nat} {l : Loan}
    (hid : loanId ≠ 0) (hfind : db.loans.find? (fun x => x.id == loanId) = some l) :
    ∃ d, getLoanDetailsForEntry db loanId = .ok d ∧
      d.nextEntryDate
        = (maxEntryDate (entriesFor db.entries loanId)).getD l.loanDate + thirtyDaysMs := by
  unfold getLoanDetailsForEntry
  rw [if_neg hid, hfind]
  dsimp only
  refine ⟨_, rfl, ?_⟩
  rw [show ((sortByEntryDateDesc (entriesFor db.entries loanId)).head?).map
        (fun e => e.entryDate)
      = ((sortByEntryDateDesc (entriesFor db.entries loanId)).head?).map
        Entry.entryDate from rfl,
    sortDesc_head_eq_maxEntryDate]

/-- Witness for C8 amended at the fixture database: the maximum entry date is
the soft-deleted entry's date. -/
theorem C8_next_entry_date_witness :
    ∃ d, getLoanDetailsForEntry c8DB 1 = .ok d ∧
      d.nextEntryDate
        = (maxEntryDate (entriesFor c8DB.entries 1)).getD c8Loan.loanDate + thirtyDaysMs :=
  C8_next_entry_date (by norm_num) rfl

/-- Loan fixture for the concurrency scenario: `balanceAmount = 100`,
zero interest rate so only the principal moves. -/
def c9Loan : Loan :=
  { id := 1, partyId := 1, loanDate := 0, loanAmount := 100, balanceAmount := 100,
    interest := 0, balanceInterest := 0, totalInterestAmount := 0, deletedAt := none,
    initBalanceAmount := 100, initBalanceInterest := 0 }

/-- Database holding `c9Loan`. -/
def c9DB : DB :=
  { loans := [c9Loan], entries := [], nextLoanId := 2, nextEntryId := 1, now := 0 }

/-- The loan's current balance, looked up by id. -/
def loanBalanceById (db : DB) (id : Nat) : Option ℚ :=
  (db.loans.find? (fun l => l.id == id)).map Loan.balanceAmount

/-- The interleaving in which both `createEntry(receivedAmount = 10)` requests
perform their loan read (which happens before `prisma.$transaction` starts)
against the same initial state, and then both transactions commit: each write
stores the constant balance computed from the shared pre-read. -/
def c9Interleaved : DB :=
  match createEntryRead c9DB 1 10 0 with
  | some r =>
      createEntryWrite (createEntryWrite c9DB 1 0 r none (some 10) none)
        1 0 r none (some 10) none
  | none => c9DB

/-- The loan after one serial posting of 10. -/
def c9LoanMid : Loan := { c9Loan with balanceAmount := 90 }

/-- Entry written by the first serial posting. -/
def c9EntryA : Entry :=
  { id := 1, loanId := 1, entryDate := 0, balanceAmount := 100, interestAmount := 0,
    receivedDate := none, receivedAmount := some 10, receivedInterest := none,
    deletedAt := none }

/-- Database after the first serial posting. -/
def c9DBmid : DB :=
  { loans := [c9LoanMid], entries := [c9EntryA], nextLoanId := 2, nextEntryId := 2,
    now := 1 }

/-- The loan after both serial postings. -/
def c9LoanEnd : Loan := { c9Loan with balanceAmount := 80 }

/-- Entry written by the second serial posting. -/
def c9EntryB : Entry :=
  { id := 2, loanId := 1, entryDate := 0, balanceAmount := 90, interestAmount := 0,
    receivedDate := none, receivedAmount := some 10, receivedInterest := none,
    deletedAt := none }

/-- Database after both serial postings. -/
def c9DBend : DB :=
  { loans := [c9LoanEnd], entries := [c9EntryA, c9EntryB], nextLoanId := 2,
    nextEntryId := 3, now := 2 }

theorem c9_step1 : createEntryOp c9DB 1 0 none (some 10) none = .ok c9DBmid := by
  unfold createEntryOp
  rw [if_pos ⟨by norm_num, by simp [optNonneg], by simp [optNonneg]⟩]
  have hfind : c9DB.loans.find? (fun l => l.id == 1) = some c9Loan := rfl
  rw [hfind]
  refine congrArg Except.ok ?_
  simp only [c9DB, c9DBmid, c9Loan, c9LoanMid, c9EntryA, calculateUpdatedLoanBalances,
    DB.mk.injEq, List.cons.injEq, Loan.mk.injEq, Entry.mk.injEq, List.map_cons,
    List.map_nil, List.nil_append]
  norm_num

theorem c9_step2 : createEntryOp c9DBmid 1 0 none (some 10) none = .ok c9DBend := by
  unfold createEntryOp
  rw [if_pos ⟨by norm_num, by simp [optNonneg], by simp [optNonneg]⟩]
  have hfind : c9DBmid.loans.find? (fun l => l.id == 1) = some c9LoanMid := rfl
  rw [hfind]
  refine congrArg Except.ok ?_
  simp only [c9DB, c9DBmid, c9DBend, c9Loan, c9LoanMid, c9LoanEnd, c9EntryA, c9EntryB,
    calculateUpdatedLoanBalances, DB.mk.injEq, List.cons.injEq, Loan.mk.injEq,
    Entry.mk.injEq, List.map_cons, List.map_nil, List.nil_append]
  norm_num

/-- C9: the lost-update interleaving. Both postings of `receivedAmount = 10`
read the loan (outside the transaction) from the same state with
`balanceAmount = 100`; after both transactions commit the balance is 90 —
one payment's effect is lost — whereas the two postings in either serial
order leave 80. -/
theorem C9_lost_update :
    loanBalanceById c9Interleaved 1 = some 90 ∧
    loanBalanceById (run [Op.createEntry 1 0 none (some 10) none,
                          Op.createEntry 1 0 none (some 10) none] c9DB) 1 = some 80 ∧
    (90 : ℚ) ≠ 80 := by
  refine ⟨?_, ?_, by norm_num⟩
  · have h1 : loanBalanceById c9Interleaved 1
        = some ((calculateUpdatedLoanBalances ⟨100, 0, 0⟩ 10 0).newBalanceAmount) := rfl
    rw [h1]
    refine congrArg some ?_
    simp only [calculateUpdatedLoanBalances]
    norm_num
  · have hserial : run [Op.createEntry 1 0 none (some 10) none,
        Op.createEntry 1 0 none (some 10) none] c9DB = c9DBend := by
      show applyStep (applyStep c9DB (Op.createEntry 1 0 none (some 10) none))
        (Op.createEntry 1 0 none (some 10) none) = c9DBend
      rw [show applyStep c9DB (Op.createEntry 1 0 none (some 10) none) = c9DBmid by
            unfold applyStep
            rw [show applyOp c9DB (Op.createEntry 1 0 none (some 10) none)
                  = .ok c9DBmid from c9_step1]]
      unfold applyStep
      rw [show applyOp c9DBmid (Op.createEntry 1 0 none (some 10) none)
            = .ok c9DBend from c9_step2]
    rw [hserial]
    rfl

/-- C10: the by-id lookups find a row whether or not it is soft-deleted and
report NotFound exactly when no row with that id exists at all, while the
entries list query returns exactly the non-soft-deleted rows (with the
optional `loanId` filter applied). -/
theorem C10_lookup_semantics (db : DB) (id : Nat) (hid : id ≠ 0) :
    (getLoan db id = .error (.notFound "Loan not found") ↔ ∀ l ∈ db.loans, l.id ≠ id) ∧
    (∀ l t, db.loans.find? (fun x => x.id == id) = some l → l.deletedAt = some t →
      getLoan db id = .ok l) ∧
    (∀ l, getLoan db id = .ok l → l ∈ db.loans ∧ l.id = id) ∧
    (getEntry db id = .error (.notFound "Entry not found") ↔ ∀ e ∈ db.entries, e.id ≠ id) ∧
    (∀ e t, db.entries.find? (fun x => x.id == id) = some e → e.deletedAt = some t →
      getEntry db id = .ok e) ∧
    (∀ e, getEntry db id = .ok e → e ∈ db.entries ∧ e.id = id) ∧
    (∀ e, e ∈ getEntries db none ↔ e ∈ db.entries ∧ e.deletedAt = none) ∧
    (∀ lid e, e ∈ getEntries db (some lid) ↔
      e ∈ db.entries ∧ e.deletedAt = none ∧ e.loanId = lid) := by
  refine ⟨?_, ?_, ?_, ?_, ?_, ?_, ?_, ?_⟩
  · unfold getLoan
    rw [if_neg hid]
    cases hfind : db.loans.find? (fun l => l.id == id) with
    | none =>
      simp only []
      constructor
      · intro _
        have := List.find?_eq_none.mp hfind
        intro l hl
        simpa using this l hl
      · intro _
        trivial
    | some l =>
      simp only []
      constructor
      · intro hcon
        exact absurd hcon (by simp)
      · intro hall
        have hmem := List.mem_of_find?_eq_some hfind
        have hidl : l.id = id := by simpa using List.find?_some hfind
        exact absurd hidl (hall l hmem)
  · intro l t hfind _
    unfold getLoan
    rw [if_neg hid, hfind]
  · intro l h
    unfold getLoan at h
    rw [if_neg hid] at h
    cases hfind : db.loans.find? (fun x => x.id == id) with
    | none => rw [hfind] at h; exact absurd h (by simp)
    | some x =>
      rw [hfind] at h
      injection h with h
      subst h
      exact ⟨List.mem_of_find?_eq_some hfind, by simpa using List.find?_some hfind⟩
  · unfold getEntry
    rw [if_neg hid]
    cases hfind : db.entries.find? (fun e => e.id == id) with
    | none =>
      simp only []
      constructor
      · intro _
        have := List.find?_eq_none.mp hfind
        intro e he
        simpa using this e he
      · intro _
        trivial
    | some e =>
      simp only []
      constructor
      · intro hcon
        exact absurd hcon (by simp)
      · intro hall
        have hmem := List.mem_of_find?_eq_some hfind
        have hide : e.id = id := by simpa using List.find?_some hfind
        exact absurd hide (hall e hmem)
  · intro e t hfind _
    unfold getEntry
    rw [if_neg hid, hfind]
  · intro e h
    unfold getEntry at h
    rw [if_neg hid] at h
    cases hfind : db.entries.find? (fun x => x.id == id) with
    | none => rw [hfind] at h; exact absurd h (by simp)
    | some x =>
      rw [hfind] at h
      injection h with h
      subst h
      exact ⟨List.mem_of_find?_eq_some hfind, by simpa using List.find?_some hfind⟩
  · intro e
    simp [getEntries, List.mem_filter]
  · intro lid e
    simp [getEntries, List.mem_filter, and_assoc]

/-- Witness for C10: in `c5DB` the loan row with id 1 is soft-deleted
(`deletedAt = some 1`), yet `getLoan` still finds and returns it. -/
theorem C10_lookup_semantics_witness :
    getLoan c5DB 1 = .ok c5Loan :=
  (C10_lookup_semantics c5DB 1 (by norm_num)).2.1 c5Loan 1 rfl rfl

end Register
